import Mathlib

/-!
Verification development for the convey repository (CSV field-type
identification and conversion planning).

The definitions below are shallow embeddings of the Python source:
  - src/convey/identifier.py : the type catalogue, the conversion-method
    table, column identification, fitting-type selection, dialect guessing,
    the base64 edges and the custom-method builders,
  - src/convey/sourceParser.py : the replay protocol of the failure ledger.

The module src/convey/graph.py is not present in the source tree; the
distance map it provides (Graph.dijkstra) is modelled from the
specification, section 4.1, as the minimal hop count to the target over
the reversed edge relation.

Strings are handled at the level of character lists; machine details that
the claims do not touch (regular-expression engines, the csv sniffer, the
network) enter as explicit oracle parameters.
-/

set_option maxRecDepth 8000

namespace Convey

/-! ## The type catalogue (identifier.py, class Types, lines 249-290)

One constructor per registered Type object, in registration order.
The whois type named prefix in the source is called pfx here because
Lean reserves that word. -/

inductive CType where
  | whois | web | custom | code | reg
  | netname | country | abusemail | pfx | csirt_contact | incident_contact
  | decoded_text | text | http_status | html | redirects | ports
  | ip | cidr | port_ip | any_ip | hostname | url | asn
  | base64 | base64_encoded | wrong_url | plaintext
deriving DecidableEq, Repr

open CType

/-- All registered types, in registration order (the global list named
types in identifier.py). -/
def allCTypes : List CType :=
  [whois, web, custom, code, reg, netname, country, abusemail, pfx,
   csirt_contact, incident_contact, decoded_text, text, http_status, html,
   redirects, ports, ip, cidr, port_ip, any_ip, hostname, url, asn,
   base64, base64_encoded, wrong_url, plaintext]

/-- The conversion edges: the keys of Types._get_methods
(identifier.py lines 338-388) in source order.  Every entry of the
current table maps to a function or None, never to the sentinel True,
so every pair is added to the graph (identifier.py line 393). -/
def convEdges : List (CType × CType) :=
  [(any_ip, ip), (port_ip, ip), (url, hostname), (hostname, ip), (url, ip),
   (ip, whois), (cidr, ip),
   (whois, pfx), (whois, asn), (whois, abusemail), (whois, country),
   (whois, netname), (whois, csirt_contact), (whois, incident_contact),
   (base64, plaintext), (plaintext, base64),
   (plaintext, custom), (plaintext, code), (plaintext, reg),
   (wrong_url, url), (hostname, url), (ip, url),
   (url, web), (web, http_status), (web, text), (web, html), (web, redirects),
   (hostname, ports), (ip, ports)]

/-- Sources of the edges that enter t. -/
def preds (t : CType) : List CType :=
  (convEdges.filter (fun e => e.2 == t)).map (·.1)

/-- Breadth-first expansion over the reversed edge relation: visited is an
association list from type to hop count, frontier the nodes reached by the
last round.  The fuel argument bounds the rounds by the node count. -/
def bfsLoop : Nat → List (CType × Nat) → List (CType × Nat) → List (CType × Nat)
  | 0, visited, _ => visited
  | _ + 1, visited, [] => visited
  | n + 1, visited, frontier =>
    let cands := frontier.flatMap (fun p => (preds p.1).map (fun q => (q, p.2 + 1)))
    let step := cands.foldl
      (fun (acc : List (CType × Nat) × List (CType × Nat)) c =>
        if (acc.1.lookup c.1).isSome then acc else (acc.1 ++ [c], acc.2 ++ [c]))
      (visited, [])
    bfsLoop n step.1 step.2

/-- Modelled from the spec: graph.py is absent from src, so
Graph.dijkstra(target) is modelled from specification section 4.1 as the
table of minimal hop counts from every reachable type to the target,
computed by a uniform-cost search over the reversed graph rooted at the
target (all edge weights are 1). -/
def distTable (t : CType) : List (CType × Nat) :=
  bfsLoop allCTypes.length [(t, 0)] [(t, 0)]

/-- Modelled from the spec: the hop count from x to t, none when t is not
reachable from x (x is then missing from the dictionary that
graph.dijkstra returns). -/
def dijkstraMap (t : CType) (x : CType) : Option Nat :=
  (distTable t).lookup x

/-! ## Identifier.get_fitting_type (identifier.py lines 615-631) -/

/-- The loop body of get_fitting_type: scan the candidate list keeping the
current minimum distance (starting from the sentinel 999) and the type
attaining it; only a strictly smaller distance replaces the current
choice. -/
def gft_loop (d : CType → Option Nat) : Nat → Option CType → List CType → Option CType
  | _, fit, [] => fit
  | m, fit, c :: cs =>
    match d c with
    | none => gft_loop d m fit cs
    | some i => if i < m then gft_loop d i (some c) cs else gft_loop d m fit cs

/-- Identifier.get_fitting_type: the column's possible types are scanned in
stored order (descending confidence); when try_plaintext is set, plaintext
is appended as the last candidate. -/
def get_fitting_type (possible_types : List CType) (target : CType)
    (try_plaintext : Bool) : Option CType :=
  gft_loop (dijkstraMap target) 999 none
    (possible_types ++ if try_plaintext then [CType.plaintext] else [])

/-- Specification-side selector for comparison with get_fitting_type: the
leftmost candidate of minimal distance, together with that distance. -/
def firstMinBy (d : CType → Option Nat) : List CType → Option (CType × Nat)
  | [] => none
  | c :: cs =>
    match d c, firstMinBy d cs with
    | none, r => r
    | some i, none => some (c, i)
    | some i, some (c', j) => if i ≤ j then some (c, i) else some (c', j)

/-! ## String helpers -/

/-- Does the first list open the second one? -/
def opens_list (xs : List Char) : List Char → Bool
  | [] => xs.isEmpty
  | y :: ys =>
    match xs with
    | [] => true
    | x :: xt => x == y && opens_list xt ys

/-- Substring test on character lists, models the Python operator in. -/
def infix_of (xs : List Char) : List Char → Bool
  | [] => xs.isEmpty
  | l@(_ :: t) => opens_list xs l || infix_of xs t

/-! ## Identifier.init scoring (identifier.py lines 551-613)

The guessable types carry regular-expression based predicates that cannot
be expressed term for term, so a guessable type is embedded as its data:
the usual names and the identification predicate as a function. -/

structure GuessType where
  gname : String
  usual_names : List String
  identify : String → Bool

/-- Header-name normalisation: drop spaces, apostrophes and double quotes,
then lowercase (identifier.py line 584). -/
def normalize_header (s : String) : List Char :=
  (s.toList.filter (fun c => c != ' ' && c != '\'' && c != '"')).map Char.toLower

/-- Fuzzy header match: some usual name contains the normalised column
name or conversely (identifier.py lines 585-589). -/
def header_matches (field_name : String) (names : List String) : Bool :=
  let s := normalize_header field_name
  names.any (fun n => infix_of s n.toList || infix_of n.toList s)

/-- The score of one guessable type for one column, none when the type is
dropped (identifier.py lines 580-609).  The source compares the hit ratio
with the literals 0.6 and 0.8 in floating point; the comparisons are
expressed here by exact cross multiplication, which agrees with the float
comparisons for every sample size the sampler can produce (at most 8
values, far below any size at which rounding could flip them). -/
def score_of (has_header : Bool) (field_name : String) (t : GuessType)
    (vals : List String) : Option Nat :=
  if (vals.filter t.identify).length = 0 then none
  else if 5 * (vals.filter t.identify).length > 3 * vals.length then
    if 5 * (vals.filter t.identify).length > 4 * vals.length then
      some ((if has_header && header_matches field_name t.usual_names then 1 else 0) + 2)
    else some ((if has_header && header_matches field_name t.usual_names then 1 else 0) + 1)
  else some (if has_header && header_matches field_name t.usual_names then 1 else 0)

/-- The possible_types mapping stored on a column: the scored guessable
types in registration order, filtered of the dropped ones, sorted by
descending score (identifier.py lines 611-612). -/
def possible_types_for (has_header : Bool) (field_name : String)
    (gts : List GuessType) (vals : List String) : List (GuessType × Nat) :=
  (gts.filterMap (fun t => (score_of has_header field_name t vals).map (fun sc => (t, sc)))).mergeSort
    (fun a b => decide (b.2 ≤ a.2))

/-- The scoring rule exactly as the specification words it, for comparison
with score_of: one point for a fuzzy header-name match, one point for a
hit ratio above 60 percent, one further point above 80 percent; per the
specification a type is dropped exactly when this total is 0. -/
def spec_claimed_score (has_header : Bool) (field_name : String) (t : GuessType)
    (vals : List String) : Nat :=
  (if has_header && header_matches field_name t.usual_names then 1 else 0) +
  (if 5 * (vals.filter t.identify).length > 3 * vals.length then 1 else 0) +
  (if 5 * (vals.filter t.identify).length > 4 * vals.length then 1 else 0)

/-! ## Sampling (identifier.py lines 485-496 and 551-575) -/

/-- Identifier.get_sample: record the first physical line and collect the
lines with index 0 to 8 (the loop breaks after appending line index 8);
the first line is returned stripped. -/
def get_sample (lines : List String) : String × List String :=
  ((lines.headD "").trim, lines.take 9)

/-- The sample lines retained for scoring by Identifier.init: the whole
sample when it has a single line, everything after the first line
otherwise (identifier.py lines 559-562). -/
def scored_lines (sample : List String) : List String :=
  if sample.length = 1 then sample.take 1 else sample.drop 1

/-- Distribute one parsed row over the per-column sample lists: the value
with index i goes to column i; a value beyond the column list raises
IndexError, modelled as none (identifier.py lines 564-567). -/
def add_row : List (List String) → List String → Option (List (List String))
  | ss, [] => some ss
  | [], _ :: _ => none
  | s :: ss, v :: vs => (add_row ss vs).map (fun r => (s ++ [v]) :: r)

/-- The sample-collection loop of Identifier.init over the scored rows. -/
def collect_samples (ss : List (List String)) : List (List String) → Option (List (List String))
  | [] => some ss
  | row :: rows =>
    match add_row ss row with
    | none => none
    | some ss' => collect_samples ss' rows

/-- Identifier.init over the dialect-parsed rows of the sample lines (the
csv reader maps retained lines to rows one to one).  The first component
is none when the row lengths do not fit the column list (the source
returns False before any possible_types assignment); otherwise it carries
the possible_types mapping of every column.  The second component records
whether the interactive error block ran (it is skipped when quiet). -/
def ident_init (field_names : List String) (has_header : Bool)
    (gts : List GuessType) (sample_rows : List (List String)) (quiet : Bool) :
    Option (List (List (GuessType × Nat))) × Bool :=
  let s := if sample_rows.length = 1 then sample_rows.take 1 else sample_rows.drop 1
  match collect_samples (field_names.map (fun _ => [])) s with
  | none => (none, !quiet)
  | some samples =>
    (some ((field_names.zip samples).map
      (fun p => possible_types_for has_header p.1 gts p.2)), false)

/-! ## Identifier.guess_dialect (identifier.py lines 509-549)

The statistical sniffer is the csv module of the Python standard library,
an external collaborator; its outcome enters as a parameter. -/

inductive SniffResult where
  | ok (delimiter : Char) (has_header : Bool)
  | failed
deriving DecidableEq, Repr

/-- The Python membership test of a character in a string, expressed on
the character list so that it evaluates inside the kernel. -/
def has_char (s : String) (c : Char) : Bool :=
  s.toList.contains c

/-- The delimiter adjustment of identifier.py lines 543-545: a sniffed dot
is replaced by a comma exactly when the sample holds no comma. -/
def dot_fix (delimiter : Char) (sample_text : String) : Char :=
  if delimiter = '.' && !(has_char sample_text ',') then ',' else delimiter

/-- Identifier.guess_dialect, delimiter and header part.  On sniffer
failure the fallback scans the second sample line (the first when there is
no second) for a doubled candidate delimiter, then for a single one,
defaulting to the comma of csv.unix_dialect; none models the quit() on an
empty sample.  The dot adjustment and the single-line header rule follow. -/
def guess_dialect (sniff : SniffResult) (sample : List String) : Option (Char × Bool) :=
  let sample_text := String.join sample
  let parsed : Option (Char × Bool) :=
    match sniff with
    | .ok delim hh => some (delim, hh)
    | .failed =>
      if sample_text.trim = "" then none
      else
        let s := sample.getD 1 (sample.headD "")
        let delim := match [',', ';', '|'].find? (fun dl => infix_of [dl, dl] s.toList) with
          | some dl => dl
          | none =>
            match [',', ';', '|'].find? (fun dl => has_char s dl) with
            | some dl => dl
            | none => ','
        some (delim, false)
  match parsed with
  | none => none
  | some (delim, hh) =>
    some (dot_fix delim sample_text, if sample.length = 1 then false else hh)

/-! ## Custom conversion methods (identifier.py lines 416-483)

Identifier.get_methods_from builds the chain steps for the custom group.
The Python exec of an operator snippet and the regular-expression engine
are oracles: ex yields the rebound variable x or none when the statement
raises; search yields group 0 and the capture groups of the first match;
fmt models str.format of the replacement template, none modelling the
IndexError of a reference to a missing group. -/

/-- The method closure built by custom_code (identifier.py lines 425-439):
a raising statement is caught, logged, and x is passed on unchanged. -/
def custom_code_method (ex : String → String → Option String) (e : String)
    (x : String) : String :=
  match ex e x with
  | none => x
  | some x' => x'

/-- The method closure built by regex (identifier.py lines 441-465): no
match yields the empty string; without a replacement template the match
itself (group 1 when groups were captured) is returned; a failing
replacement is caught, logged, and the empty string is returned. -/
def regex_method (search : String → Option (String × List String))
    (replace : Option String)
    (fmt : String → String → List String → Option String)
    (s : String) : String :=
  match search s with
  | none => ""
  | some (g0, groups) =>
    match replace with
    | none =>
      match groups with
      | [] => g0
      | g1 :: _ => g1
    | some r =>
      match fmt r g0 groups with
      | some out => out
      | none => ""

/-- The chain step for a Types.custom target (identifier.py line 469): the
operator module method is returned as is, without any containment wrapper;
a raising call propagates. -/
def custom_module_method (f : String → Except String String) (x : String) :
    Except String String :=
  f x

/-! ## The Web cache (identifier.py lines 95-136) -/

/-- The effect of a completed HTTP response after the scraping step
(status code, shortened text, raw html, redirect trail). -/
structure WResponse where
  status : Nat
  wtext : Option String
  html : Option String
  redirects : Option String
deriving DecidableEq, Repr

/-- The value stored as self.get: the response tuple, or on IOError the
tuple holding the error message and three None entries. -/
inductive WebGet where
  | got (status : Nat) (wtext html redirects : Option String)
  | ioerror (msg : String)
deriving DecidableEq, Repr

/-- Build self.get from the outcome of requests.get and the scraping
(identifier.py lines 118-135). -/
def web_build (resp : Except String WResponse) : WebGet :=
  match resp with
  | .error e => .ioerror e
  | .ok r => .got r.status r.wtext r.html r.redirects

/-- Web.__init__: serve self.get from the class cache when the url is
known, otherwise perform the external request, build self.get (an error
sentinel on IOError) and store it.  The last component counts the external
requests issued by the call. -/
def web_lookup (request : String → Except String WResponse)
    (cache : List (String × WebGet)) (url : String) :
    WebGet × List (String × WebGet) × Nat :=
  match cache.lookup url with
  | some g => (g, cache, 0)
  | none =>
    let g := web_build (request url)
    (g, (url, g) :: cache, 1)

/-! ## The base64 edge pair (identifier.py lines 88-92 and 358-359)

The conversion table carries the edge plaintext to base64 as
b64encode(x.encode("UTF-8")).decode("UTF-8") and the edge base64 to
plaintext as base64decode, which is
b64decode(x).decode("UTF-8").replace newline by backslash-n, none on a
decoding failure.  The byte codec is embedded for ASCII payloads, where
the UTF-8 encoding of a string is the list of its character codes. -/

/-- The base64 alphabet: the character of a six-bit value. -/
def encChar (n : Nat) : Char :=
  if n < 26 then Char.ofNat (65 + n)
  else if n < 52 then Char.ofNat (97 + (n - 26))
  else if n < 62 then Char.ofNat (48 + (n - 52))
  else if n = 62 then '+' else '/'

/-- The six-bit value of a base64 character, none outside the alphabet. -/
def decChar (c : Char) : Option Nat :=
  if 'A' ≤ c ∧ c ≤ 'Z' then some (c.toNat - 65)
  else if 'a' ≤ c ∧ c ≤ 'z' then some (c.toNat - 97 + 26)
  else if '0' ≤ c ∧ c ≤ '9' then some (c.toNat - 48 + 52)
  else if c = '+' then some 62
  else if c = '/' then some 63
  else none

/-- Standard base64 encoding of a byte list (bytes as naturals below 256),
with padding, three bytes to four characters. -/
def b64encodeBytes : List Nat → List Char
  | [] => []
  | [b0] => [encChar (b0 / 4), encChar (b0 % 4 * 16), '=', '=']
  | [b0, b1] =>
    [encChar (b0 / 4), encChar (b0 % 4 * 16 + b1 / 16), encChar (b1 % 16 * 4), '=']
  | b0 :: b1 :: b2 :: rest =>
    encChar (b0 / 4) :: encChar (b0 % 4 * 16 + b1 / 16) ::
    encChar (b1 % 16 * 4 + b2 / 64) :: encChar (b2 % 64) :: b64encodeBytes rest

/-- Standard base64 decoding, none on a malformed input. -/
def b64decodeBytes : List Char → Option (List Nat)
  | [] => some []
  | c0 :: c1 :: c2 :: c3 :: rest =>
    match decChar c0, decChar c1 with
    | some s0, some s1 =>
      if c2 = '=' ∧ c3 = '=' ∧ rest = [] then some [s0 * 4 + s1 / 16]
      else if c3 = '=' ∧ rest = [] then
        match decChar c2 with
        | some s2 => some [s0 * 4 + s1 / 16, s1 % 16 * 16 + s2 / 4]
        | none => none
      else
        match decChar c2, decChar c3, b64decodeBytes rest with
        | some s2, some s3, some bs =>
          some ((s0 * 4 + s1 / 16) :: (s1 % 16 * 16 + s2 / 4) :: (s2 % 4 * 64 + s3) :: bs)
        | _, _, _ => none
    | _, _ => none
  | _ => none

/-- The replacement of every newline by backslash-n performed inside
base64decode (str.replace with a one-character needle). -/
def replNL : List Char → List Char
  | [] => []
  | c :: t => if c = '\n' then '\\' :: 'n' :: replNL t else c :: replNL t

/-- The conversion edge plaintext to base64 (identifier.py line 359), for
ASCII payloads. -/
def plaintext_2_base64 (s : String) : String :=
  String.mk (b64encodeBytes (s.toList.map Char.toNat))

/-- base64decode (identifier.py lines 88-92), for ASCII payloads: decode,
render the bytes as text and escape newlines; none models the caught
decoding failure. -/
def base64decode (s : String) : Option String :=
  (b64decodeBytes s.toList).map (fun bs => String.mk (replNL (bs.map Char.ofNat)))

/-! ## Registry build (identifier.py lines 228-243 and 391-394)

The method table maps an edge to a conversion function, to None for the
custom targets, or to the sentinel True for an invisible identity edge;
Type._init reads only which entries are exactly True. -/

inductive MVal where
  | fn
  | truthy
  | nothing
deriving DecidableEq, Repr

/-- The registry error raised by Type._init as RuntimeWarning. -/
inductive RegError where
  | multiple_afters (t : CType) (l : List CType)
  | multiple_befores (t : CType) (l : List CType)
deriving DecidableEq, Repr

/-- The stops of the True entries that start at t (identifier.py line 230). -/
def afters (ms : List ((CType × CType) × MVal)) (t : CType) : List CType :=
  (ms.filter (fun e => e.1.1 == t && e.2 == MVal.truthy)).map (fun e => e.1.2)

/-- The starts of the True entries that stop at t (identifier.py line 231). -/
def befores (ms : List ((CType × CType) × MVal)) (t : CType) : List CType :=
  (ms.filter (fun e => e.1.2 == t && e.2 == MVal.truthy)).map (fun e => e.1.1)

/-- The is_plaintext_derivable flag (identifier.py lines 242-243). -/
def is_plaintext_derivable (t : CType) : Bool :=
  t != CType.plaintext && (dijkstraMap t CType.plaintext).isSome

/-- Resolution of the unambiguous neighbour on one side: exactly one
candidate is taken, none leaves the type itself (the default set in
Type.__init__), several raise. -/
def resolve_one (t : CType) (l : List CType)
    (mk : CType → List CType → RegError) : Except RegError CType :=
  if l.length = 1 then Except.ok (l.headD t)
  else if l.length = 0 then Except.ok t
  else Except.error (mk t l)

/-- Type._init for one type over a method table: resolve the unambiguous
successor and predecessor and the plaintext-derivable flag; more than one
candidate raises, the successor side first as in the source. -/
def type_init (ms : List ((CType × CType) × MVal)) (t : CType) :
    Except RegError (CType × CType × Bool) :=
  match resolve_one t (afters ms t) RegError.multiple_afters,
      resolve_one t (befores ms t) RegError.multiple_befores with
  | Except.error e, _ => Except.error e
  | Except.ok _, Except.error e => Except.error e
  | Except.ok after, Except.ok before =>
    Except.ok (after, before, is_plaintext_derivable t)

/-- One step of the registry build: extend the accumulated registry with
the next type unless a raise already aborted it. -/
def registry_step (ms : List ((CType × CType) × MVal))
    (acc : Except RegError (List (CType × (CType × CType × Bool))))
    (t : CType) : Except RegError (List (CType × (CType × CType × Bool))) := do
  let l ← acc
  let r ← type_init ms t
  pure (l ++ [(t, r)])

/-- The registry build at module import (identifier.py line 394): run
Type._init over every registered type in order; the first raise aborts
the import. -/
def registry_build (ms : List ((CType × CType) × MVal)) :
    Except RegError (List (CType × (CType × CType × Bool))) :=
  allCTypes.foldl (registry_step ms) (pure [])

/-! ## The replay protocol (sourceParser.py lines 443-459)

The filesystem is an association list from file name to content; the
counters are the ones touched by SourceParser._reset_output.  The
processing of a file is the abstract parameter process, standing for
Processor.process_file; its boolean records normal return (true) against a
raised exception (false), with the state it leaves behind. -/

structure RState where
  fs : List (String × String)
  line_count : Nat
  line_sout : Nat
  velocity : Nat
  invalid_lines_count : Nat
  files_created : List String
deriving DecidableEq, Repr

/-- Drop a file from the filesystem. -/
def fs_delete (name : String) (fs : List (String × String)) : List (String × String) :=
  fs.filter (fun e => e.1 != name)

/-- Remove the first occurrence of an element, as list.remove does. -/
def remove_first (b : String) : List String → List String
  | [] => []
  | x :: xs => if x == b then xs else x :: remove_first b xs

/-- SourceParser._reset_output (sourceParser.py lines 327-330). -/
def reset_output (st : RState) : RState :=
  { st with line_count := 0, line_sout := 1, velocity := 0 }

/-- The state prepared by SourceParser._resolve_again before reprocessing:
the ledger renamed onto the temporary name, the output counters reset and
the ledger basename dropped from files_created so a recreated file gets a
header again. -/
def prepare_replay (path basename content : String) (st : RState) : RState :=
  let temp := path ++ ".running.tmp"
  let st := { st with fs := (temp, content) :: fs_delete temp (fs_delete path st.fs) }
  let st := reset_output st
  { st with files_created := remove_first basename st.files_created }

/-- SourceParser._resolve_again: a missing ledger file reports failure
without reprocessing (some false); otherwise the renamed temporary is
streamed through process and deleted after a normal return, the counters
being reset once more (some true); none models an exception of process
propagating out, in which case the unlink is never reached. -/
def resolve_again (process : String → RState → RState × Bool)
    (path basename : String) (st : RState) : RState × Option Bool :=
  let temp := path ++ ".running.tmp"
  match st.fs.lookup path with
  | none => (st, some false)
  | some content =>
    match process temp (prepare_replay path basename content st) with
    | (st', false) => (st', none)
    | (st', true) => (reset_output { st' with fs := fs_delete temp st'.fs }, some true)

/-! ## Helper lemmas -/

theorem mem_allCTypes (t : CType) : t ∈ allCTypes := by
  cases t <;> simp [allCTypes]

theorem dijkstra_bound : ∀ t ∈ allCTypes, ∀ x ∈ allCTypes,
    (dijkstraMap t x).getD 0 < 999 := by decide

theorem dijkstra_lt (t x : CType) {i : Nat} (h : dijkstraMap t x = some i) :
    i < 999 := by
  have hb := dijkstra_bound t (mem_allCTypes t) x (mem_allCTypes x)
  rw [h] at hb
  simpa using hb

theorem gft_loop_eq (d : CType → Option Nat) (cs : List CType) :
    ∀ (m : Nat) (fit : Option CType),
    gft_loop d m fit cs = (match firstMinBy d cs with
      | none => fit
      | some ci => if ci.2 < m then some ci.1 else fit) := by
  induction cs with
  | nil => intro m fit; rfl
  | cons c cs ih =>
    intro m fit
    have lmatch : gft_loop d m fit (c :: cs) = (match d c with
      | none => gft_loop d m fit cs
      | some i => if i < m then gft_loop d i (some c) cs else gft_loop d m fit cs) := rfl
    have rmatch : firstMinBy d (c :: cs) = (match d c, firstMinBy d cs with
      | none, r => r
      | some i, none => some (c, i)
      | some i, some (c', j) => if i ≤ j then some (c, i) else some (c', j)) := rfl
    rw [lmatch, rmatch]
    rcases hc : d c with _ | i <;> dsimp only
    · exact ih m fit
    · rcases hr : firstMinBy d cs with _ | ⟨c', j⟩ <;> dsimp only
      · by_cases him : i < m
        · rw [if_pos him, ih i (some c), hr, if_pos him]
        · rw [if_neg him, ih m fit, hr, if_neg him]
      · by_cases him : i < m
        · rw [if_pos him, ih i (some c), hr]
          dsimp only
          by_cases hij : i ≤ j
          · rw [if_pos hij]
            dsimp only
            rw [if_neg (show ¬ j < i by omega), if_pos him]
          · rw [if_neg hij]
            dsimp only
            rw [if_pos (show j < i by omega), if_pos (show j < m by omega)]
        · rw [if_neg him, ih m fit, hr]
          dsimp only
          by_cases hij : i ≤ j
          · rw [if_pos hij]
            dsimp only
            rw [if_neg (show ¬ j < m by omega), if_neg him]
          · rw [if_neg hij]

theorem firstMinBy_spec (d : CType → Option Nat) :
    ∀ cs : List CType,
    (firstMinBy d cs = none → ∀ x ∈ cs, d x = none)
    ∧ (∀ c i, firstMinBy d cs = some (c, i) →
        d c = some i ∧ c ∈ cs ∧ ∀ x ∈ cs, ∀ j, d x = some j → i ≤ j) := by
  intro cs
  induction cs with
  | nil => exact ⟨fun _ x hx => absurd hx (by simp), fun c i h => by simp [firstMinBy] at h⟩
  | cons x cs ih =>
    have hcons : firstMinBy d (x :: cs) = (match d x, firstMinBy d cs with
      | none, r => r
      | some i, none => some (x, i)
      | some i, some (c', j) => if i ≤ j then some (x, i) else some (c', j)) := rfl
    constructor
    · intro h y hy
      rw [hcons] at h
      rcases hx : d x with _ | k <;> rw [hx] at h <;> try dsimp only at h
      · rcases List.mem_cons.mp hy with rfl | hy'
        · exact hx
        · exact ih.1 h y hy'
      · rcases hr : firstMinBy d cs with _ | ⟨c', j'⟩ <;> rw [hr] at h <;> try dsimp only at h
        · simp at h
        · by_cases hk : k ≤ j' <;> simp [hk] at h
    · intro c i h
      rw [hcons] at h
      rcases hx : d x with _ | k <;> rw [hx] at h <;> try dsimp only at h
      · rcases hr : firstMinBy d cs with _ | ⟨c', j'⟩ <;> rw [hr] at h <;> try dsimp only at h
        · simp at h
        · obtain ⟨h1, h2, h3⟩ := ih.2 c i (hr.trans h)
          refine ⟨h1, List.mem_cons_of_mem _ h2, ?_⟩
          intro y hy j hj
          rcases List.mem_cons.mp hy with rfl | hy'
          · rw [hx] at hj; simp at hj
          · exact h3 y hy' j hj
      · rcases hr : firstMinBy d cs with _ | ⟨c', j'⟩ <;> rw [hr] at h <;> try dsimp only at h
        · simp only [Option.some.injEq, Prod.mk.injEq] at h
          obtain ⟨rfl, rfl⟩ := h
          refine ⟨hx, List.mem_cons_self _ _, ?_⟩
          intro y hy j hj
          rcases List.mem_cons.mp hy with rfl | hy'
          · rw [hx] at hj
            simp only [Option.some.injEq] at hj
            omega
          · rw [ih.1 hr y hy'] at hj; simp at hj
        · by_cases hk : k ≤ j'
          · rw [if_pos hk] at h
            simp only [Option.some.injEq, Prod.mk.injEq] at h
            obtain ⟨rfl, rfl⟩ := h
            refine ⟨hx, List.mem_cons_self _ _, ?_⟩
            intro y hy j hj
            rcases List.mem_cons.mp hy with rfl | hy'
            · rw [hx] at hj
              simp only [Option.some.injEq] at hj
              omega
            · have := (ih.2 c' j' hr).2.2 y hy' j hj
              omega
          · rw [if_neg hk] at h
            simp only [Option.some.injEq, Prod.mk.injEq] at h
            obtain ⟨rfl, rfl⟩ := h
            obtain ⟨h1, h2, h3⟩ := ih.2 _ _ hr
            refine ⟨h1, List.mem_cons_of_mem _ h2, ?_⟩
            intro y hy j hj
            rcases List.mem_cons.mp hy with rfl | hy'
            · rw [hx] at hj
              simp only [Option.some.injEq] at hj
              omega
            · exact h3 y hy' j hj

theorem firstMinBy_strict (d : CType → Option Nat) :
    ∀ (xs : List CType) (p : CType) (i : Nat),
    firstMinBy d (xs ++ [p]) = some (p, i) → p ∉ xs →
    ∀ x ∈ xs, ∀ j, d x = some j → i < j := by
  intro xs
  induction xs with
  | nil => intro p i h hp x hx; simp at hx
  | cons x xs ih =>
    intro p i h hp y hy j hj
    have hcons : firstMinBy d ((x :: xs) ++ [p])
        = (match d x, firstMinBy d (xs ++ [p]) with
          | none, r => r
          | some k, none => some (x, k)
          | some k, some (c', j') => if k ≤ j' then some (x, k) else some (c', j')) := rfl
    rw [hcons] at h
    have hpx : p ≠ x := fun he => hp (he ▸ List.mem_cons_self x xs)
    have hpxs : p ∉ xs := fun he => hp (List.mem_cons_of_mem _ he)
    rcases hx : d x with _ | k <;> rw [hx] at h <;> try dsimp only at h
    · rcases List.mem_cons.mp hy with rfl | hy'
      · rw [hx] at hj; simp at hj
      · exact ih p i h hpxs y hy' j hj
    · rcases hr : firstMinBy d (xs ++ [p]) with _ | ⟨c', j'⟩ <;> rw [hr] at h <;>
        try dsimp only at h
      · simp only [Option.some.injEq, Prod.mk.injEq] at h
        exact absurd h.1.symm hpx
      · by_cases hk : k ≤ j'
        · rw [if_pos hk] at h
          simp only [Option.some.injEq, Prod.mk.injEq] at h
          exact absurd h.1.symm hpx
        · rw [if_neg hk] at h
          simp only [Option.some.injEq, Prod.mk.injEq] at h
          obtain ⟨rfl, rfl⟩ := h
          rcases List.mem_cons.mp hy with rfl | hy'
          · rw [hx] at hj
            simp only [Option.some.injEq] at hj
            omega
          · exact ih _ _ hr hpxs y hy' j hj

/-! ## Claim C1 -/

/-- C1, counterexample.  The claim says the plaintext fallback is used only
when no candidate of the column matches; but for the target plaintext a
column whose single candidate type is base64 does match (the edge base64 to
plaintext gives it distance 1), and get_fitting_type still returns the
appended plaintext fallback, which is not among the column's candidates. -/
theorem claim1_counterexample :
    get_fitting_type [CType.base64] CType.plaintext true = some CType.plaintext
    ∧ dijkstraMap CType.plaintext CType.base64 = some 1
    ∧ CType.base64 ≠ CType.plaintext := by decide

/-- C1, amended.  get_fitting_type returns the leftmost minimal-distance
type among the column's candidates (stored in descending confidence, so a
distance tie goes to the higher-confidence candidate), with plaintext
appended as the last, lowest-priority candidate when fallback is
permitted; the fallback is returned only when its distance to the target
is strictly smaller than the distance of every matching candidate of the
column, so it never displaces a candidate of equal or smaller distance. -/
theorem claim1_fitting_type (L : List CType) (t : CType) (tp : Bool) :
    get_fitting_type L t tp
      = (firstMinBy (dijkstraMap t) (L ++ if tp then [CType.plaintext] else [])).map
          (fun p => p.1)
    ∧ (CType.plaintext ∉ L →
        get_fitting_type L t true = some CType.plaintext →
        ∃ i, dijkstraMap t CType.plaintext = some i
          ∧ ∀ c ∈ L, ∀ j, dijkstraMap t c = some j → i < j) := by
  have key : ∀ tp' : Bool, get_fitting_type L t tp'
      = (firstMinBy (dijkstraMap t) (L ++ if tp' then [CType.plaintext] else [])).map
          (fun p => p.1) := by
    intro tp'
    show gft_loop (dijkstraMap t) 999 none (L ++ if tp' then [CType.plaintext] else []) = _
    rw [gft_loop_eq]
    rcases h : firstMinBy (dijkstraMap t) (L ++ if tp' then [CType.plaintext] else [])
      with _ | ⟨c, i⟩
    · rfl
    · have hd := ((firstMinBy_spec (dijkstraMap t) _).2 c i h).1
      have hb := dijkstra_lt t c hd
      simp [hb]
  refine ⟨key tp, ?_⟩
  intro hnotin hres
  have htr : (if true then [CType.plaintext] else ([] : List CType)) = [CType.plaintext] := rfl
  rw [key true, htr] at hres
  rcases hmb : firstMinBy (dijkstraMap t) (L ++ [CType.plaintext]) with _ | ⟨r, i⟩ <;>
    rw [hmb] at hres
  · simp at hres
  · simp only [Option.map_some', Option.some.injEq] at hres
    subst hres
    obtain ⟨hd_pl, _, _⟩ := (firstMinBy_spec (dijkstraMap t) _).2 _ _ hmb
    exact ⟨i, hd_pl, firstMinBy_strict (dijkstraMap t) L CType.plaintext i hmb hnotin⟩

/-- C1, witness: for a column whose single candidate is base64 and the
target custom, the fallback plaintext is returned and its distance 1 is
strictly below the distance 2 of the matching candidate base64. -/
theorem claim1_witness :
    ∃ i, dijkstraMap CType.custom CType.plaintext = some i
      ∧ ∀ c ∈ [CType.base64], ∀ j, dijkstraMap CType.custom c = some j → i < j :=
  (claim1_fitting_type [CType.base64] CType.custom true).2 (by decide) (by decide)

/-! ## Claim C2 -/

/-- C2, counterexample.  The claim says exactly the types with total score
0 are dropped.  But the code continues (drops the type) whenever no
sampled value satisfies the predicate, even when the header hint matched
and the claimed total is 1; and it keeps, with stored score 0, a type whose
predicate matched 50 percent of the values without a header hint, whose
claimed total is 0. -/
theorem claim2_counterexample :
    score_of true "ip" ⟨"ip", ["ip"], fun _ => false⟩ ["1.2.3.4"] = none
    ∧ spec_claimed_score true "ip" ⟨"ip", ["ip"], fun _ => false⟩ ["1.2.3.4"] = 1
    ∧ score_of false "c" ⟨"c", [], fun v => v == "a"⟩ ["a", "b"] = some 0
    ∧ spec_claimed_score false "c" ⟨"c", [], fun v => v == "a"⟩ ["a", "b"] = 0 := by
  refine ⟨rfl, rfl, rfl, rfl⟩

/-- C2, amended.  A guessable type is dropped exactly when none of the
sampled values satisfies its identification predicate (so a header-only
match is dropped too, and a type kept on predicate hits alone may carry
score 0); every kept type is stored with the claimed score of one point
per header hint, per hit ratio above 60 percent and per hit ratio above 80
percent, and the stored mapping is sorted by descending score. -/
theorem claim2_scoring (hh : Bool) (fn : String) (t : GuessType)
    (vals : List String) (gts : List GuessType) :
    (score_of hh fn t vals = none ↔ (vals.filter t.identify).length = 0)
    ∧ ((vals.filter t.identify).length ≠ 0 →
        score_of hh fn t vals = some (spec_claimed_score hh fn t vals))
    ∧ (possible_types_for hh fn gts vals).Pairwise (fun a b => b.2 ≤ a.2)
    ∧ (∀ p ∈ possible_types_for hh fn gts vals,
        p.1 ∈ gts ∧ score_of hh fn p.1 vals = some p.2)
    ∧ (∀ u ∈ gts, (vals.filter u.identify).length ≠ 0 →
        ∃ sc, (u, sc) ∈ possible_types_for hh fn gts vals) := by
  have hnone : ∀ u : GuessType, (score_of hh fn u vals = none
      ↔ (vals.filter u.identify).length = 0) := by
    intro u
    unfold score_of
    by_cases h : (vals.filter u.identify).length = 0
    · simp [h]
    · simp only [h, if_false, iff_false]
      split_ifs <;> simp
  refine ⟨hnone t, ?_, ?_, ?_, ?_⟩
  · intro h
    unfold score_of spec_claimed_score
    rw [if_neg h]
    split_ifs <;> simp only [Option.some.injEq] <;> omega
  · have hs := @List.sorted_mergeSort (GuessType × Nat)
      (fun a b => decide (b.2 ≤ a.2))
      (fun a b c hab hbc => by
        simp only [decide_eq_true_eq] at hab hbc ⊢
        omega)
      (fun a b => by
        simp only [Bool.or_eq_true, decide_eq_true_eq]
        omega)
      (gts.filterMap (fun u => (score_of hh fn u vals).map (fun sc => (u, sc))))
    exact hs.imp (fun h => by simpa using h)
  · intro p hp
    rw [possible_types_for, List.mem_mergeSort] at hp
    obtain ⟨u, hu, hf⟩ := List.mem_filterMap.mp hp
    rcases hsc : score_of hh fn u vals with _ | sc <;> rw [hsc] at hf
    · simp at hf
    · simp only [Option.map_some', Option.some.injEq] at hf
      subst hf
      exact ⟨hu, hsc⟩
  · intro u hu hne
    rcases hsc : score_of hh fn u vals with _ | sc
    · exact absurd ((hnone u).mp hsc) hne
    · refine ⟨sc, ?_⟩
      rw [possible_types_for, List.mem_mergeSort]
      exact List.mem_filterMap.mpr ⟨u, hu, by rw [hsc]; rfl⟩

/-- C2, witness: a column named ip whose single sample value satisfies the
ip predicate is kept and scored via the claimed formula. -/
theorem claim2_witness :
    score_of true "ip" ⟨"ip", ["ip"], fun v => v == "1.2.3.4"⟩ ["1.2.3.4"]
      = some (spec_claimed_score true "ip" ⟨"ip", ["ip"], fun v => v == "1.2.3.4"⟩
          ["1.2.3.4"]) :=
  (claim2_scoring true "ip" ⟨"ip", ["ip"], fun v => v == "1.2.3.4"⟩
    ["1.2.3.4"] []).2.1 (by decide)

/-! ## Claim C3 -/

theorem dot_fix_ne (delim : Char) (text : String)
    (hc : has_char text ',' = false) : dot_fix delim text ≠ '.' := by
  unfold dot_fix
  split_ifs with h
  · decide
  · intro he
    subst he
    simp [hc] at h

/-- C3, counterexample.  The claim says a dot is never returned as the
delimiter unless no comma is present; but when the sniffer proposes a dot
and the sample does contain a comma, the adjustment of identifier.py
lines 543-545 leaves the dot in place: the replacement happens exactly in
the comma-free case. -/
theorem claim3_counterexample :
    guess_dialect (SniffResult.ok '.' false) ["1.2.3.4,a"] = some ('.', false)
    ∧ has_char (String.join ["1.2.3.4,a"]) ',' = true := by
  refine ⟨by decide, by decide⟩

/-- C3, amended.  Dialect detection never returns the dot as delimiter
when the sample holds no comma: a sniffed dot is then replaced by a comma
(and the sniffer-failure fallback only ever proposes a comma, semicolon or
pipe); only when a comma is present can a sniffed dot be kept. -/
theorem claim3_dot_delimiter (sniff : SniffResult) (sample : List String)
    (d : Char) (hh : Bool)
    (hc : has_char (String.join sample) ',' = false)
    (hres : guess_dialect sniff sample = some (d, hh)) : d ≠ '.' := by
  unfold guess_dialect at hres
  cases sniff with
  | ok delim hh0 =>
    dsimp only at hres
    simp only [Option.some.injEq, Prod.mk.injEq] at hres
    exact hres.1 ▸ dot_fix_ne delim (String.join sample) hc
  | failed =>
    dsimp only at hres
    by_cases htr : (String.join sample).trim = ""
    · rw [if_pos htr] at hres
      simp at hres
    · rw [if_neg htr] at hres
      dsimp only at hres
      simp only [Option.some.injEq, Prod.mk.injEq] at hres
      exact hres.1 ▸ dot_fix_ne _ (String.join sample) hc

/-- C3, witness: a bare dotted-quad sample with no comma gets the sniffed
dot replaced by a comma. -/
theorem claim3_witness :
    guess_dialect (SniffResult.ok '.' true) ["1.2.3.4"] = some (',', false)
    ∧ (',' : Char) ≠ '.' :=
  ⟨by decide, claim3_dot_delimiter (SniffResult.ok '.' true) ["1.2.3.4"] ',' false
    (by decide) (by decide)⟩

/-! ## Claim C4 -/

/-- C4, counterexample.  The claim says a failing plugin conversion always
passes the input value through unchanged; but the regex method closure of
get_methods_from returns the empty string, not the input, when the
replacement template cannot be applied to the match. -/
theorem claim4_counterexample :
    regex_method (fun s => some (s, [])) (some "r") (fun _ _ _ => none) "abc" = ""
    ∧ "abc" ≠ "" := by
  exact ⟨rfl, by decide⟩

/-- C4, amended.  A failing operator code snippet is caught and the input
value passes through unchanged; a failing regular expression (no match, or
a replacement template that cannot be applied) is caught but yields the
empty string instead of the input; an operator module method is handed out
by get_methods_from without any containment wrapper, so its failures
propagate to the caller. -/
theorem claim4_custom_failures :
    (∀ (ex : String → String → Option String) (e x : String),
      ex e x = none → custom_code_method ex e x = x)
    ∧ (∀ (search : String → Option (String × List String))
        (fmt : String → String → List String → Option String)
        (s r g0 : String) (groups : List String),
        search s = some (g0, groups) → fmt r g0 groups = none →
        regex_method search (some r) fmt s = "")
    ∧ (∀ (search : String → Option (String × List String))
        (replace : Option String)
        (fmt : String → String → List String → Option String) (s : String),
        search s = none → regex_method search replace fmt s = "")
    ∧ (∀ (f : String → Except String String) (x : String),
        custom_module_method f x = f x) := by
  refine ⟨?_, ?_, ?_, ?_⟩
  · intro ex e x h
    unfold custom_code_method
    rw [h]
  · intro search fmt s r g0 groups hs hf
    unfold regex_method
    rw [hs]
    dsimp only
    rw [hf]
  · intro search replace fmt s hs
    unfold regex_method
    rw [hs]
  · intro f x
    rfl

/-- C4, witness: a raising code snippet leaves the value unchanged, and a
failing replacement template yields the empty string. -/
theorem claim4_witness :
    custom_code_method (fun _ _ => none) "x = 1 /" "abc" = "abc"
    ∧ regex_method (fun s => some (s, [])) (some "r") (fun _ _ _ => none) "xy" = "" :=
  ⟨claim4_custom_failures.1 (fun _ _ => none) "x = 1 /" "abc" rfl,
   claim4_custom_failures.2.1 (fun s => some (s, [])) (fun _ _ _ => none)
     "xy" "r" "xy" [] rfl rfl⟩

/-! ## Claim C6 -/

/-- C6: two web lookups for the same fresh url issue exactly one external
request (the first call counts 1, the second 0, being served from the
class cache) and return the same stored value; an IOError of the first
request is stored as the error sentinel, so the failed outcome is what
both lookups return. -/
theorem claim6_web_cache (request : String → Except String WResponse)
    (cache : List (String × WebGet)) (url : String)
    (h : cache.lookup url = none) :
    (web_lookup request cache url).2.2 = 1
    ∧ (web_lookup request (web_lookup request cache url).2.1 url).2.2 = 0
    ∧ (web_lookup request (web_lookup request cache url).2.1 url).1
        = (web_lookup request cache url).1
    ∧ (∀ e, request url = Except.error e →
        (web_lookup request cache url).1 = WebGet.ioerror e) := by
  have h1 : web_lookup request cache url
      = (web_build (request url), (url, web_build (request url)) :: cache, 1) := by
    unfold web_lookup
    rw [h]
  have h2 : ((url, web_build (request url)) :: cache).lookup url
      = some (web_build (request url)) := by
    simp [List.lookup]
  have h3 : web_lookup request ((url, web_build (request url)) :: cache) url
      = (web_build (request url), (url, web_build (request url)) :: cache, 0) := by
    unfold web_lookup
    rw [h2]
  refine ⟨by rw [h1], by rw [h1]; dsimp only; rw [h3], by rw [h1]; dsimp only; rw [h3], ?_⟩
  intro e he
  rw [h1]
  dsimp only
  unfold web_build
  rw [he]

/-- C6, witness: a lookup whose request times out stores and returns the
error sentinel. -/
theorem claim6_witness :
    (web_lookup (fun _ => Except.error "timeout") [] "http://a").1
      = WebGet.ioerror "timeout" :=
  (claim6_web_cache (fun _ => Except.error "timeout") [] "http://a" rfl).2.2.2
    "timeout" rfl

/-! ## Claim C5 -/

theorem lookup_fs_delete_self (a : String) : ∀ fs : List (String × String),
    (fs_delete a fs).lookup a = none := by
  intro fs
  induction fs with
  | nil => rfl
  | cons e fs ih =>
    obtain ⟨k, v⟩ := e
    by_cases h : k = a
    · simpa [fs_delete, List.filter_cons, h] using ih
    · have hka : ((k, v).1 != a) = true := by simp [h]
      have hak : (a == k) = false := by
        simp only [beq_eq_false_iff_ne]
        exact fun he => h he.symm
      simp only [fs_delete, List.filter_cons, hka, if_true] at ih ⊢
      rw [List.lookup, hak]
      exact ih

theorem lookup_fs_delete_ne (a b : String) (h : a ≠ b) : ∀ fs : List (String × String),
    (fs_delete b fs).lookup a = fs.lookup a := by
  intro fs
  induction fs with
  | nil => rfl
  | cons e fs ih =>
    obtain ⟨k, v⟩ := e
    by_cases hk : k = b
    · have hab : (a == b) = false := by
        simp only [beq_eq_false_iff_ne]
        exact h
      simp only [fs_delete, List.filter_cons, hk, bne_self_eq_false,
        Bool.false_eq_true, if_false] at ih ⊢
      rw [ih, List.lookup, hab]
    · have hkb : ((k, v).1 != b) = true := by simp [hk]
      simp only [fs_delete, List.filter_cons, hkb, if_true] at ih ⊢
      rw [List.lookup, List.lookup]
      cases a == k
      · exact ih
      · rfl

theorem temp_name_ne (path : String) : path ≠ path ++ ".running.tmp" := by
  intro he
  have hl := congrArg String.length he
  rw [String.length_append] at hl
  have h12 : (".running.tmp" : String).length = 12 := rfl
  omega

theorem opens_list_self (xs : List Char) : ∀ r, opens_list xs (xs ++ r) = true := by
  induction xs with
  | nil => intro r; cases r <;> rfl
  | cons x xt ih =>
    intro r
    show (x == x && opens_list xt (xt ++ r)) = true
    simp [ih r]

theorem infix_of_append (xs : List Char) (hne : xs ≠ []) :
    ∀ (pre r : List Char), infix_of xs (pre ++ (xs ++ r)) = true := by
  intro pre
  induction pre with
  | nil =>
    intro r
    obtain ⟨x, xt, rfl⟩ : ∃ a t, xs = a :: t := by
      cases xs
      · exact absurd rfl hne
      · exact ⟨_, _, rfl⟩
    show (opens_list (x :: xt) ((x :: xt) ++ r) || infix_of (x :: xt) (xt ++ r)) = true
    have hop := opens_list_self (x :: xt) r
    rw [hop, Bool.true_or]
  | cons p ps ih =>
    intro r
    show (opens_list xs (p :: (ps ++ (xs ++ r))) || infix_of xs (ps ++ (xs ++ r))) = true
    simp [ih r]

/-- C5: the replay protocol of SourceParser._resolve_again.  The ledger is
renamed onto a temporary whose name carries the .running marker; the
output counters are reset and the ledger name dropped from files_created
before the temporary is streamed through the same processing function used
for normal rows; the temporary is deleted exactly when that processing
returns normally (an exception propagates with the temporary still in
place); and a missing ledger file reports failure without any processing,
whatever the processing function would do. -/
theorem claim5_replay (process : String → RState → RState × Bool)
    (path basename content : String) (st : RState)
    (hpath : st.fs.lookup path = some content)
    (hkeep : ∀ s : RState,
      ((process (path ++ ".running.tmp") s).1.fs.lookup (path ++ ".running.tmp"))
        = s.fs.lookup (path ++ ".running.tmp")) :
    (infix_of ".running".toList (path ++ ".running.tmp").toList = true)
    ∧ (∀ st₀ : RState, st₀.fs.lookup path = none →
        resolve_again process path basename st₀ = (st₀, some false))
    ∧ ((prepare_replay path basename content st).line_count = 0
        ∧ (prepare_replay path basename content st).line_sout = 1
        ∧ (prepare_replay path basename content st).velocity = 0
        ∧ (prepare_replay path basename content st).files_created
            = remove_first basename st.files_created
        ∧ (prepare_replay path basename content st).fs.lookup (path ++ ".running.tmp")
            = some content
        ∧ (prepare_replay path basename content st).fs.lookup path = none)
    ∧ (∀ st' : RState,
        process (path ++ ".running.tmp") (prepare_replay path basename content st)
          = (st', true) →
        resolve_again process path basename st
          = (reset_output { st' with fs := fs_delete (path ++ ".running.tmp") st'.fs },
             some true)
        ∧ (reset_output { st' with
            fs := fs_delete (path ++ ".running.tmp") st'.fs }).fs.lookup
              (path ++ ".running.tmp") = none)
    ∧ (∀ st' : RState,
        process (path ++ ".running.tmp") (prepare_replay path basename content st)
          = (st', false) →
        resolve_again process path basename st = (st', none)
        ∧ st'.fs.lookup (path ++ ".running.tmp") = some content) := by
  have hmark : (path ++ ".running.tmp").toList
      = path.toList ++ (".running".toList ++ ".tmp".toList) := by
    have hda := String.data_append path ".running.tmp"
    simp only [String.toList]
    rw [hda]
    rfl
  refine ⟨?_, ?_, ?_, ?_, ?_⟩
  · rw [hmark]
    exact infix_of_append _ (by decide) _ _
  · intro st₀ h0
    unfold resolve_again
    rw [h0]
  · refine ⟨rfl, rfl, rfl, rfl, ?_, ?_⟩
    · show ((path ++ ".running.tmp", content) ::
        fs_delete (path ++ ".running.tmp") (fs_delete path st.fs)).lookup
          (path ++ ".running.tmp") = some content
      rw [List.lookup]
      simp
    · show ((path ++ ".running.tmp", content) ::
        fs_delete (path ++ ".running.tmp") (fs_delete path st.fs)).lookup path = none
      rw [List.lookup]
      have : (path == path ++ ".running.tmp") = false := by
        simp only [beq_eq_false_iff_ne]
        exact temp_name_ne path
      rw [this]
      rw [lookup_fs_delete_ne path (path ++ ".running.tmp") (temp_name_ne path)]
      exact lookup_fs_delete_self path st.fs
  · intro st' hp
    constructor
    · unfold resolve_again
      rw [hpath]
      dsimp only
      rw [hp]
    · exact lookup_fs_delete_self (path ++ ".running.tmp") st'.fs
  · intro st' hp
    constructor
    · unfold resolve_again
      rw [hpath]
      dsimp only
      rw [hp]
    · have hk := hkeep (prepare_replay path basename content st)
      rw [hp] at hk
      dsimp only at hk
      rw [hk]
      show ((path ++ ".running.tmp", content) ::
        fs_delete (path ++ ".running.tmp") (fs_delete path st.fs)).lookup
          (path ++ ".running.tmp") = some content
      rw [List.lookup]
      simp

/-- C5, witness: replaying a one-row invalid ledger with a processing
function that returns normally leaves a state without the temporary and
reports success; a missing ledger reports failure. -/
theorem claim5_witness :
    resolve_again (fun _ s => (s, true)) "inv" "inv"
        ⟨[], 5, 3, 2, 7, []⟩ = (⟨[], 5, 3, 2, 7, []⟩, some false) :=
  (claim5_replay (fun _ s => (s, true)) "inv" "inv" "row"
      ⟨[("inv", "row")], 5, 3, 2, 7, ["inv"]⟩ (by decide) (fun _ => rfl)).2.1
    ⟨[], 5, 3, 2, 7, []⟩ (by decide)

/-! ## Claim C7 -/

theorem dec_enc : ∀ n, n < 64 → decChar (encChar n) = some n := by decide

theorem encChar_ne_pad : ∀ n, n < 64 → encChar n ≠ '=' := by decide

theorem b64_roundtrip : ∀ (bs : List Nat), (∀ b ∈ bs, b < 256) →
    b64decodeBytes (b64encodeBytes bs) = some bs
  | [], _ => rfl
  | [b0], h => by
    have hb0 : b0 < 256 := h b0 (by simp)
    have h1 := dec_enc (b0 / 4) (by omega)
    have h2 := dec_enc (b0 % 4 * 16) (by omega)
    show b64decodeBytes
      [encChar (b0 / 4), encChar (b0 % 4 * 16), '=', '='] = some [b0]
    rw [b64decodeBytes, h1, h2]
    dsimp only
    rw [if_pos ⟨rfl, rfl, rfl⟩]
    simp only [Option.some.injEq, List.cons.injEq, and_true]
    omega
  | [b0, b1], h => by
    have hb0 : b0 < 256 := h b0 (by simp)
    have hb1 : b1 < 256 := h b1 (by simp)
    have h1 := dec_enc (b0 / 4) (by omega)
    have h2 := dec_enc (b0 % 4 * 16 + b1 / 16) (by omega)
    have h3 := dec_enc (b1 % 16 * 4) (by omega)
    show b64decodeBytes
      [encChar (b0 / 4), encChar (b0 % 4 * 16 + b1 / 16),
       encChar (b1 % 16 * 4), '='] = some [b0, b1]
    rw [b64decodeBytes, h1, h2]
    dsimp only
    rw [if_neg (fun hand => encChar_ne_pad (b1 % 16 * 4) (by omega) hand.1)]
    rw [if_pos ⟨rfl, rfl⟩, h3]
    dsimp only
    simp only [Option.some.injEq, List.cons.injEq, and_true]
    constructor <;> omega
  | b0 :: b1 :: b2 :: rest, h => by
    have hb0 : b0 < 256 := h b0 (by simp)
    have hb1 : b1 < 256 := h b1 (by simp)
    have hb2 : b2 < 256 := h b2 (by simp)
    have h1 := dec_enc (b0 / 4) (by omega)
    have h2 := dec_enc (b0 % 4 * 16 + b1 / 16) (by omega)
    have h3 := dec_enc (b1 % 16 * 4 + b2 / 64) (by omega)
    have h4 := dec_enc (b2 % 64) (by omega)
    have ih := b64_roundtrip rest (fun b hb => h b (by simp [hb]))
    show b64decodeBytes
      (encChar (b0 / 4) :: encChar (b0 % 4 * 16 + b1 / 16) ::
       encChar (b1 % 16 * 4 + b2 / 64) :: encChar (b2 % 64) ::
       b64encodeBytes rest) = some (b0 :: b1 :: b2 :: rest)
    rw [b64decodeBytes, h1, h2]
    dsimp only
    rw [if_neg (fun hand => encChar_ne_pad (b1 % 16 * 4 + b2 / 64) (by omega) hand.1)]
    rw [if_neg (fun hand => encChar_ne_pad (b2 % 64) (by omega) hand.1)]
    rw [h3, h4, ih]
    dsimp only
    simp only [Option.some.injEq, List.cons.injEq, and_true]
    refine ⟨by omega, by omega, by omega⟩

theorem replNL_eq_of_no_newline : ∀ cs : List Char, '\n' ∉ cs → replNL cs = cs := by
  intro cs
  induction cs with
  | nil => intro _; rfl
  | cons c t ih =>
    intro hn
    have hc : ¬ c = '\n' := fun he => hn (he ▸ List.mem_cons_self c t)
    rw [replNL, if_neg hc, ih (fun hm => hn (List.mem_cons_of_mem _ hm))]

theorem map_ofNat_toNat (cs : List Char) : (cs.map Char.toNat).map Char.ofNat = cs := by
  rw [List.map_map]
  have hco : Char.ofNat ∘ Char.toNat = id := funext Char.ofNat_toNat
  rw [hco, List.map_id]

/-- C7: encoding with the plaintext-to-base64 edge and decoding with the
base64-to-plaintext edge returns the original string for every ASCII
string without newlines; when the string holds newlines, the round trip
returns the string with every newline rewritten to the two characters
backslash n, so the newlines appear in escaped form and are not lost. -/
theorem claim7_base64_roundtrip (s : String)
    (hascii : ∀ c ∈ s.toList, c.toNat < 128) :
    base64decode (plaintext_2_base64 s) = some (String.mk (replNL s.toList))
    ∧ ('\n' ∉ s.toList → base64decode (plaintext_2_base64 s) = some s) := by
  have hb : ∀ b ∈ s.toList.map Char.toNat, b < 256 := by
    intro b hbm
    obtain ⟨c, hc, rfl⟩ := List.mem_map.mp hbm
    have := hascii c hc
    omega
  have key : base64decode (plaintext_2_base64 s)
      = some (String.mk (replNL s.toList)) := by
    unfold base64decode plaintext_2_base64
    have hml : (String.mk (b64encodeBytes (s.toList.map Char.toNat))).toList
        = b64encodeBytes (s.toList.map Char.toNat) := rfl
    rw [hml, b64_roundtrip _ hb]
    simp only [Option.map_some', Option.some.injEq]
    rw [map_ofNat_toNat]
  refine ⟨key, fun hnl => ?_⟩
  rw [key, replNL_eq_of_no_newline _ hnl]
  rfl

/-- C7, witness: a concrete ASCII round trip. -/
theorem claim7_witness :
    base64decode (plaintext_2_base64 "Hello convey") = some "Hello convey" :=
  (claim7_base64_roundtrip "Hello convey" (by decide)).2 (by decide)

/-! ## Claim C8 -/

/-- C8: evaluation of the sampling code at the failing input.  On a file
of ten lines the sampler keeps nine lines (the loop of
Identifier.get_sample appends the lines with index 0 through 8 before
breaking), scoring drops only the first of them, and the single column of
a delimiter-free file therefore receives eight sample values, one more
than the claimed limit of seven; the companion comment in sourceParser.py
(line 39, first to up to eighth line) matches the claim, not the code. -/
theorem claim8_nine_line_sample :
    (get_sample ["l1", "l2", "l3", "l4", "l5", "l6", "l7", "l8", "l9", "l10"]).2.length = 9
    ∧ (scored_lines
        (get_sample ["l1", "l2", "l3", "l4", "l5", "l6", "l7", "l8", "l9", "l10"]).2).length = 8
    ∧ collect_samples [[]]
        ((scored_lines
          (get_sample ["l1", "l2", "l3", "l4", "l5", "l6", "l7", "l8", "l9", "l10"]).2).map
            (fun l => [l]))
        = some [["l2", "l3", "l4", "l5", "l6", "l7", "l8", "l9"]]
    ∧ ¬ (8 ≤ 7)
    ∧ scored_lines ["a", "b", "c"] = ["b", "c"]
    ∧ scored_lines ["a"] = ["a"] := by
  exact ⟨rfl, rfl, rfl, by omega, rfl, rfl⟩

/-! ## Claim C9 -/

theorem registry_step_error (ms : List ((CType × CType) × MVal)) (e : RegError) :
    ∀ l : List CType, l.foldl (registry_step ms) (Except.error e) = Except.error e := by
  intro l
  induction l with
  | nil => rfl
  | cons t ts ih => exact ih

theorem type_init_err (ms : List ((CType × CType) × MVal)) (t : CType)
    (hamb : 1 < (afters ms t).length ∨ 1 < (befores ms t).length) :
    ∃ e, type_init ms t = Except.error e := by
  unfold type_init
  rcases hamb with ha | hb
  · have h1 : resolve_one t (afters ms t) RegError.multiple_afters
        = Except.error (RegError.multiple_afters t (afters ms t)) := by
      unfold resolve_one
      rw [if_neg (by omega : ¬ (afters ms t).length = 1),
        if_neg (by omega : ¬ (afters ms t).length = 0)]
    rw [h1]
    exact ⟨_, rfl⟩
  · have h2 : resolve_one t (befores ms t) RegError.multiple_befores
        = Except.error (RegError.multiple_befores t (befores ms t)) := by
      unfold resolve_one
      rw [if_neg (by omega : ¬ (befores ms t).length = 1),
        if_neg (by omega : ¬ (befores ms t).length = 0)]
    rcases hres : resolve_one t (afters ms t) RegError.multiple_afters with e | a
    · exact ⟨e, rfl⟩
    · rw [h2]
      exact ⟨_, rfl⟩

theorem registry_fold_err (ms : List ((CType × CType) × MVal)) :
    ∀ (l : List CType) (init : List (CType × (CType × CType × Bool))) (t : CType),
    t ∈ l → (∃ e, type_init ms t = Except.error e) →
    ∃ e', l.foldl (registry_step ms) (Except.ok init) = Except.error e' := by
  intro l
  induction l with
  | nil => intro init t h; simp at h
  | cons x xs ih =>
    intro init t hmem he
    show ∃ e', xs.foldl (registry_step ms) (registry_step ms (Except.ok init) x)
      = Except.error e'
    rcases hx : type_init ms x with ex | rx
    · have hstep : registry_step ms (Except.ok init) x = Except.error ex := by
        unfold registry_step
        show type_init ms x >>= _ = _
        rw [hx]
        rfl
      rw [hstep]
      exact ⟨ex, registry_step_error ms ex xs⟩
    · have hstep : registry_step ms (Except.ok init) x = Except.ok (init ++ [(x, rx)]) := by
        unfold registry_step
        show type_init ms x >>= _ = _
        rw [hx]
        rfl
      rw [hstep]
      rcases List.mem_cons.mp hmem with rfl | hmem'
      · obtain ⟨e, he'⟩ := he
        rw [he'] at hx
        cases hx
      · exact ih (init ++ [(x, rx)]) t hmem' he

/-- C9: when the method table gives some type more than one unambiguous
(True-valued) successor or more than one unambiguous predecessor, the
registry build, which runs Type._init for every registered type while the
catalogue is initialised at module import, raises; planning never runs on
such a table. -/
theorem claim9_registry_ambiguity (ms : List ((CType × CType) × MVal)) (t : CType)
    (hamb : 1 < (afters ms t).length ∨ 1 < (befores ms t).length) :
    ∃ e, registry_build ms = Except.error e :=
  registry_fold_err ms allCTypes [] t (mem_allCTypes t) (type_init_err ms t hamb)

/-- C9, witness: a table where plaintext has two True successors aborts
the registry build. -/
theorem claim9_witness :
    ∃ e, registry_build
        [((CType.plaintext, CType.base64), MVal.truthy),
         ((CType.plaintext, CType.custom), MVal.truthy)] = Except.error e :=
  claim9_registry_ambiguity
    [((CType.plaintext, CType.base64), MVal.truthy),
     ((CType.plaintext, CType.custom), MVal.truthy)]
    CType.plaintext (by decide)

/-! ## Claim C10 -/

theorem add_row_none : ∀ (ss : List (List String)) (row : List String),
    (add_row ss row = none ↔ ss.length < row.length) := by
  intro ss
  induction ss with
  | nil =>
    intro row
    cases row <;> simp [add_row]
  | cons s ss ih =>
    intro row
    cases row with
    | nil => simp [add_row]
    | cons v vs =>
      simp only [add_row, Option.map_eq_none', ih vs, List.length_cons]
      omega

/-- Length preservation of the per-row distribution. -/
theorem add_row_len : ∀ (ss : List (List String)) (row : List String)
    (ss' : List (List String)), add_row ss row = some ss' → ss'.length = ss.length := by
  intro ss
  induction ss with
  | nil =>
    intro row ss' h
    cases row with
    | nil => cases h; rfl
    | cons v vs => simp [add_row] at h
  | cons s ss ih =>
    intro row ss' h
    cases row with
    | nil => cases h; rfl
    | cons v vs =>
      simp only [add_row, Option.map_eq_some'] at h
      obtain ⟨r, hr, rfl⟩ := h
      simp [ih vs r hr]

theorem collect_samples_none : ∀ (rows : List (List String)) (ss : List (List String)),
    (∃ row ∈ rows, ss.length < row.length) → collect_samples ss rows = none := by
  intro rows
  induction rows with
  | nil =>
    intro ss h
    simp at h
  | cons row rows ih =>
    intro ss h
    obtain ⟨r, hr, hlen⟩ := h
    unfold collect_samples
    rcases List.mem_cons.mp hr with rfl | hr'
    · rw [(add_row_none ss r).mpr hlen]
    · rcases ha : add_row ss row with _ | ss'
      · rfl
      · exact ih ss' ⟨r, hr', by rw [add_row_len ss row ss' ha]; exact hlen⟩

/-- C10: when some scored sample row parses to more fields than the locked
column list, Identifier.init returns False before assigning possible_types
to any column, and with quiet set the interactive error block is skipped
entirely. -/
theorem claim10_row_too_long (field_names : List String) (hh : Bool)
    (gts : List GuessType) (rows : List (List String)) (quiet : Bool)
    (hlong : ∃ row ∈ (if rows.length = 1 then rows.take 1 else rows.drop 1),
        field_names.length < row.length) :
    ident_init field_names hh gts rows quiet = (none, !quiet) := by
  unfold ident_init
  dsimp only
  obtain ⟨r, hr, hl⟩ := hlong
  have hcoll : collect_samples (field_names.map (fun _ => []))
      (if rows.length = 1 then rows.take 1 else rows.drop 1) = none := by
    apply collect_samples_none
    exact ⟨r, hr, by simpa using hl⟩
  rw [hcoll]

/-- C10, witness: a single locked column against a scored row of two
fields fails quietly, with no prompt flagged. -/
theorem claim10_witness :
    ident_init ["a"] false [] [["h"], ["1", "2"]] true = (none, false) :=
  claim10_row_too_long ["a"] false [] [["h"], ["1", "2"]] true (by decide)

end Convey
